import Mathlib

/-! # web3-haproxy-agent: health check agent

A shallow embedding of `main.go`: the line-triggered TCP handler
(`handleRequest`), the health evaluator (`checkHealth`) and the JSON-RPC block
number query (`getLatestBlock`), together with the parts of the Go standard
library whose exact behaviour decides the results (`strconv.ParseInt`, the
`int64 -> float64 -> int64` conversions around `math.Abs`).

Conventions.
* Go `int64` / `uint64` values are `Int` / `Nat` with explicit wrap-around.
* Go `string`s are Lean `String`s; the parsers walk over `String.data`.
  `strconv` inspects bytes: every byte of a non-ASCII character is `>= 0x80`
  and is rejected by the same branch that rejects the character here.
* Effects (writes and close on the connection, outbound HTTP posts, lines
  printed on standard output) are recorded, in order, in a trace.
-/

namespace Web3HaproxyAgent

/-! ## Machine integers -/

/-- Two's complement reduction of an integer to the `int64` range. -/
def wrapInt64 (x : Int) : Int :=
  (x + 9223372036854775808) % 18446744073709551616 - 9223372036854775808

/-- Reduction of a natural number to the `uint64` range. -/
def wrapUint64 (n : Nat) : Nat :=
  n % 18446744073709551616

/-! ## `strconv` -/

/-- The two error kinds a `strconv.NumError` of `ParseInt` wraps, plus the
base and bit-size errors. -/
inductive NumErr where
  | ErrSyntax
  | ErrRange
  | ErrBase
  | ErrBitSize
  deriving DecidableEq, Repr

/-- The helper `lower(c)` of `strconv`: `c | ('x' - 'X')`. -/
def lower (c : Nat) : Nat :=
  c ||| 32

/-- The loop of `underscoreOK`: `saw` is the class of the last character seen
(`'^'`, `'0'`, `'_'` or `'!'`). -/
def underscoreLoop (hex : Bool) : Char → List Char → Bool
  | saw, [] => saw != '_'
  | saw, c :: cs =>
    if ('0'.toNat ≤ c.toNat ∧ c.toNat ≤ '9'.toNat) ∨
        (hex = true ∧ 'a'.toNat ≤ lower c.toNat ∧ lower c.toNat ≤ 'f'.toNat) then
      underscoreLoop hex '0' cs
    else if c = '_' then
      if saw ≠ '0' then false else underscoreLoop hex '_' cs
    else if saw = '_' then false
    else underscoreLoop hex '!' cs

/-- The check `underscoreOK(s)` of `strconv`: underscores must separate digits, or a base prefix
from a digit. -/
def underscoreOK (s : List Char) : Bool :=
  let s1 := match s with
    | c :: cs => if c = '-' ∨ c = '+' then cs else s
    | [] => s
  match s1 with
  | c0 :: c1 :: cs =>
    if c0 = '0' ∧ (lower c1.toNat = 'b'.toNat ∨ lower c1.toNat = 'o'.toNat
        ∨ lower c1.toNat = 'x'.toNat) then
      underscoreLoop (lower c1.toNat = 'x'.toNat) '0' cs
    else underscoreLoop false '^' s1
  | _ => underscoreLoop false '^' s1

/-- The digit switch of `ParseUint`'s loop: the value of `c` as a digit
(`0-9`, then letters of either case from 10), `none` for the `default` case. -/
def digitOf (c : Char) : Option Nat :=
  if '0'.toNat ≤ c.toNat ∧ c.toNat ≤ '9'.toNat then some (c.toNat - '0'.toNat)
  else if 'a'.toNat ≤ lower c.toNat ∧ lower c.toNat ≤ 'z'.toNat then
    some (lower c.toNat - 'a'.toNat + 10)
  else none

/-- The digit loop of `ParseUint`: `n` is the value accumulated so far,
`underscores` records whether an underscore was skipped.  `Sum.inr (v, e)` is
a `return v, e` inside the loop; `Sum.inl (n, underscores)` is the state in
which the loop ends. -/
def parseLoop (base : Nat) (base0 : Bool) (cutoff maxVal : Nat) :
    Nat → Bool → List Char → (Nat × Bool) ⊕ (Nat × NumErr)
  | n, underscores, [] => Sum.inl (n, underscores)
  | n, underscores, c :: cs =>
    if c = '_' ∧ base0 = true then
      parseLoop base base0 cutoff maxVal n true cs
    else
      match digitOf c with
      | none => Sum.inr (0, NumErr.ErrSyntax)
      | some d =>
        if d ≥ base then Sum.inr (0, NumErr.ErrSyntax)
        else if n ≥ cutoff then Sum.inr (maxVal, NumErr.ErrRange)
        else
          let n0 := wrapUint64 (n * base)
          let n1 := wrapUint64 (n0 + d)
          if n1 < n0 ∨ n1 > maxVal then Sum.inr (maxVal, NumErr.ErrRange)
          else parseLoop base base0 cutoff maxVal n1 underscores cs

/-- Go's `strconv.ParseUint(s, base, bitSize)`, with `IntSize` 64: the value and
the kind of error returned (`none` for `nil`). -/
def ParseUint (s : List Char) (base bitSize : Nat) : Nat × Option NumErr :=
  match s with
  | [] => (0, some NumErr.ErrSyntax)
  | c0 :: rest =>
    let base0 := decide (base = 0)
    -- the base and the digits that remain after the prefix
    let sel : Option (Nat × List Char) :=
      if 2 ≤ base ∧ base ≤ 36 then some (base, s)
      else if base = 0 then
        if c0 = '0' then
          match rest with
          | c1 :: c2 :: cs =>
            if lower c1.toNat = 'b'.toNat then some (2, c2 :: cs)
            else if lower c1.toNat = 'o'.toNat then some (8, c2 :: cs)
            else if lower c1.toNat = 'x'.toNat then some (16, c2 :: cs)
            else some (8, rest)
          | _ => some (8, rest)
        else some (10, s)
      else none
    match sel with
    | none => (0, some NumErr.ErrBase)
    | some (b, digits) =>
      if bitSize > 64 then (0, some NumErr.ErrBitSize)
      else
        let bits := if bitSize = 0 then 64 else bitSize
        let cutoff := 18446744073709551615 / b + 1
        let maxVal := wrapUint64 (wrapUint64 (2 ^ bits) + 18446744073709551616 - 1)
        match parseLoop b base0 cutoff maxVal 0 false digits with
        | Sum.inr (v, e) => (v, some e)
        | Sum.inl (n, underscores) =>
          if underscores = true ∧ underscoreOK s = false then (0, some NumErr.ErrSyntax)
          else (n, none)

/-- Go's `strconv.ParseInt(s, base, bitSize)`: the value and the kind of error
returned (`none` for `nil`).  On a range error the value is the nearest bound,
not 0. -/
def ParseInt (s : List Char) (base bitSize : Nat) : Int × Option NumErr :=
  match s with
  | [] => (0, some NumErr.ErrSyntax)
  | c0 :: rest =>
    let neg := decide (c0 = '-')
    let s1 := if c0 = '+' then rest else if c0 = '-' then rest else s
    let (un, err) := ParseUint s1 base bitSize
    if err ≠ none ∧ err ≠ some NumErr.ErrRange then (0, err)
    else
      let bits := if bitSize = 0 then 64 else bitSize
      let cutoff := wrapUint64 (2 ^ (bits - 1))
      if neg = false ∧ un ≥ cutoff then
        (wrapInt64 (Int.ofNat (cutoff - 1)), some NumErr.ErrRange)
      else if neg = true ∧ un > cutoff then
        (wrapInt64 (-(Int.ofNat cutoff)), some NumErr.ErrRange)
      else
        let n := wrapInt64 (Int.ofNat un)
        (if neg = true then wrapInt64 (-n) else n, none)

/-! ## `float64` conversions around `math.Abs`

Every `float64` obtained from an `int64` is an integer, so the `float64`
values that occur are represented by the integer they denote. -/

/-- Round a natural number to the nearest number with a 53-bit significand,
ties to even: the magnitude of `float64(x)` for an integer of magnitude `n`. -/
def roundFloat64 (n : Nat) : Nat :=
  if n < 2 ^ 53 then n
  else
    let e := Nat.log2 n - 52
    let q := n / 2 ^ e
    let r := n % 2 ^ e
    let half := 2 ^ (e - 1)
    if r < half then q * 2 ^ e
    else if r > half then (q + 1) * 2 ^ e
    else if q % 2 = 0 then q * 2 ^ e
    else (q + 1) * 2 ^ e

/-- The conversion `float64(x)` of an `int64`. -/
def float64OfInt64 (x : Int) : Int :=
  if x < 0 then -(Int.ofNat (roundFloat64 x.natAbs)) else Int.ofNat (roundFloat64 x.natAbs)

/-- Go's `math.Abs` on an integer-valued `float64`. -/
def mathAbs (f : Int) : Int :=
  Int.ofNat f.natAbs

/-- The conversion `int64(f)` of an integer-valued `float64`.  When the value
is not representable the Go specification leaves the result to the
implementation; `overflowConv` is that result. -/
def int64OfFloat64 (overflowConv : Int) (f : Int) : Int :=
  if -9223372036854775808 ≤ f ∧ f ≤ 9223372036854775807 then f
  else wrapInt64 overflowConv

/-! ## The program's data -/

/-- The struct `NodeRequest`: the JSON-RPC call. -/
structure NodeRequest where
  JsonRpc : String
  Method : String
  Id : Int
  deriving DecidableEq, Repr

/-- The struct `NodeResponse`: the JSON-RPC reply. -/
structure NodeResponse where
  JsonRpc : String
  Result : String
  Id : Int
  deriving DecidableEq, Repr

/-- What `http.Post` returns: an error, or a response with its status line
and the bytes `ioutil.ReadAll` obtains from its body. -/
inductive PostOutcome where
  | transportError (err : String)
  | response (status : String) (body : String)
  deriving DecidableEq, Repr

/-- One observable effect of the program. -/
inductive Event where
  | connWrite (bytes : String)
  | connClose
  | httpPost (url : String) (contentType : String) (payload : NodeRequest)
  | stdout (text : String)
  deriving DecidableEq, Repr

/-- Everything outside the program that its functions consult.
* `env` is `os.LookupEnv`;
* `post k url` is the outcome of `http.Post` to `url` when `k` posts were
  issued before it;
* `unmarshal` is `json.Unmarshal` into a `NodeResponse` (`none`: an error);
* `overflowConv` is the implementation's result for an unrepresentable
  `float64` to `int64` conversion. -/
structure World where
  env : String → Option String
  post : Nat → String → PostOutcome
  unmarshal : String → Option NodeResponse
  overflowConv : Int

/-- The program state threaded through the functions: the number of posts
issued and the effects performed, oldest first. -/
structure State where
  posts : Nat
  trace : List Event
  deriving DecidableEq, Repr

/-- The peer's side of an accepted connection: the bytes it sends, and the
error (`EOF` when it disconnects) that ends the stream after them. -/
structure Conn where
  incoming : List Char
  readErr : String

/-- Go's `bufio.Reader.ReadString(delim)`: the bytes up to and including the first
`delim`, or the bytes read and the error met before any `delim`. -/
def ReadString (conn : Conn) (delim : Char) : List Char × Option String :=
  if delim ∈ conn.incoming then
    (conn.incoming.takeWhile (fun c => c != delim) ++ [delim], none)
  else (conn.incoming, some conn.readErr)

/-- Go's `strings.HasPrefix(s, p)`. -/
def HasPrefix (s p : String) : Bool :=
  p.data.isPrefixOf s.data

/-- Record an effect. -/
def State.emit (s : State) (e : Event) : State :=
  { s with trace := s.trace ++ [e] }

/-! ## The program -/

/-- The function `getEnv(key, fallback)`: the value of the environment variable,
or the fallback when it is not set. -/
def getEnv (w : World) (key fallback : String) : String :=
  match w.env key with
  | some value => value
  | none => fallback

/-- The function `getLatestBlock(nodeUrl)`: posts the `eth_blockNumber` request
and returns the height parsed from the reply, 0 on a failed post, a status
other than `200 OK` or an undecodable body.  The errors of `ParseInt` are
discarded; `resp.Body.Close()` is not recorded. -/
def getLatestBlock (w : World) (nodeUrl : String) (s : State) : Int × State :=
  let payload : NodeRequest := { JsonRpc := "2.0", Method := "eth_blockNumber", Id := 1 }
  let s1 : State :=
    { posts := s.posts + 1
      trace := s.trace ++ [Event.httpPost nodeUrl "application/json" payload] }
  match w.post s.posts nodeUrl with
  | PostOutcome.transportError _ =>
    (0, s1.emit (Event.stdout "Error! Could not request latest block from node.\n"))
  | PostOutcome.response status responseBody =>
    if status ≠ "200 OK" then
      (0, s1.emit (Event.stdout
        ("Error! Received HTTP status " ++ status ++ " from node " ++ nodeUrl ++ "\n")))
    else
      match w.unmarshal responseBody with
      | none => (0, s1.emit (Event.stdout "Error! Cannot unmarshal JSON\n"))
      | some nodeResponse =>
        if HasPrefix nodeResponse.Result "0x" = true then
          ((ParseInt nodeResponse.Result.data 0 64).1, s1)
        else
          ((ParseInt nodeResponse.Result.data 10 64).1, s1)

/-- The function `checkHealth()`: queries the reference node, then the node under
test, and compares `int64(math.Abs(float64(reference - node)))` with the
configured maximum. -/
def checkHealth (w : World) (s : State) : Bool × State :=
  let maxHeightDiff := (ParseInt (getEnv w "MAX_HEIGHT_DIFF" "100").data 10 64).1
  let referenceNodeUrl := getEnv w "REFERENCE_NODE_URL" "localhost:8545"
  let nodeUrl := getEnv w "NODE_URL" "localhost:8545"
  let (referenceBlockNumber, s1) := getLatestBlock w referenceNodeUrl s
  let (blockNumber, s2) := getLatestBlock w nodeUrl s1
  let diff := int64OfFloat64 w.overflowConv
    (mathAbs (float64OfInt64 (wrapInt64 (referenceBlockNumber - blockNumber))))
  (decide (diff ≤ maxHeightDiff), s2)

/-- The method `(client *Client) handleRequest()` on the connection `conn`: on a
failed read it prints the error and returns; otherwise it writes a newline,
the verdict, and closes the connection. -/
def handleRequest (w : World) (conn : Conn) (s : State) : State :=
  match (ReadString conn '\n').2 with
  | some err => s.emit (Event.stdout (err ++ "\n"))
  | none =>
    let s1 := s.emit (Event.connWrite "\n")
    let (isHealthy, s2) := checkHealth w s1
    let s3 :=
      if isHealthy = true then s2.emit (Event.connWrite "up\n")
      else s2.emit (Event.connWrite "down\n")
    s3.emit Event.connClose

/-! ## Vocabulary of the specification -/

/-- The effects on the connection: its writes and closes. -/
def connEvents (t : List Event) : List Event :=
  t.filter (fun e => match e with
    | Event.connWrite _ => true
    | Event.connClose => true
    | _ => false)

/-- Number of times the connection was closed. -/
def closeCount (t : List Event) : Nat :=
  t.count Event.connClose

/-- The bytes written to the connection, in order. -/
def bytesWritten : List Event → List Char
  | [] => []
  | Event.connWrite b :: t => b.data ++ bytesWritten t
  | _ :: t => bytesWritten t

/-- Number of outbound block-number queries. -/
def postCount (t : List Event) : Nat :=
  (t.filter (fun e => match e with
    | Event.httpPost _ _ _ => true
    | _ => false)).length

/-- Value of a digit character: `0-9`, then letters of either case from 10. -/
def digitVal (c : Char) : Nat :=
  if '0'.toNat ≤ c.toNat ∧ c.toNat ≤ '9'.toNat then c.toNat - '0'.toNat
  else if 'a'.toNat ≤ c.toNat ∧ c.toNat ≤ 'z'.toNat then c.toNat - 'a'.toNat + 10
  else c.toNat - 'A'.toNat + 10

/-- A decimal digit. -/
def isDecDigit (c : Char) : Prop :=
  '0'.toNat ≤ c.toNat ∧ c.toNat ≤ '9'.toNat

/-- A hexadecimal digit, of either case. -/
def isHexDigit (c : Char) : Prop :=
  ('0'.toNat ≤ c.toNat ∧ c.toNat ≤ '9'.toNat) ∨ ('a'.toNat ≤ c.toNat ∧ c.toNat ≤ 'f'.toNat)
    ∨ ('A'.toNat ≤ c.toNat ∧ c.toNat ≤ 'F'.toNat)

instance (c : Char) : Decidable (isDecDigit c) := by
  unfold isDecDigit; infer_instance

instance (c : Char) : Decidable (isHexDigit c) := by
  unfold isHexDigit; infer_instance

/-- The number a sequence of digits denotes in `base`, continuing from `acc`. -/
def digitsValueFrom (base : Nat) : Nat → List Char → Nat
  | acc, [] => acc
  | acc, c :: cs => digitsValueFrom base (acc * base + digitVal c) cs

/-- The number a sequence of digits denotes in `base`. -/
def digitsValue (base : Nat) (ds : List Char) : Nat :=
  digitsValueFrom base 0 ds

/-- The string without its optional leading sign. -/
def stripSign (s : List Char) : List Char :=
  match s with
  | c :: r => if c = '+' ∨ c = '-' then r else s
  | [] => []

/-- A decimal body that is no number: empty, or a run of decimal digits
whose value fits in 64 bits followed by a character that is no decimal digit. -/
def MalformedDec (body : List Char) : Prop :=
  body = [] ∨ ∃ ds c rest, body = ds ++ c :: rest ∧ (∀ d ∈ ds, isDecDigit d) ∧
    digitsValue 10 ds < 18446744073709551616 ∧ ¬ isDecDigit c

/-- A hexadecimal body (what follows `0x`) that is no number: empty, or a run
of hexadecimal digits whose value fits in 64 bits followed by a character
that is neither a hexadecimal digit nor an underscore. -/
def MalformedHex (body : List Char) : Prop :=
  body = [] ∨ ∃ ds c rest, body = ds ++ c :: rest ∧ (∀ d ∈ ds, isHexDigit d) ∧
    digitsValue 16 ds < 18446744073709551616 ∧ ¬ isHexDigit c ∧ c ≠ '_'

/-- The query to `nodeUrl` issued in state `s` fails: transport error, a
status other than `200 OK`, or a body `json.Unmarshal` rejects. -/
def queryFails (w : World) (nodeUrl : String) (s : State) : Prop :=
  match w.post s.posts nodeUrl with
  | PostOutcome.transportError _ => True
  | PostOutcome.response status body => status ≠ "200 OK" ∨ w.unmarshal body = none

/-! ## Example worlds -/

/-- The body of a JSON-RPC reply carrying `result`. -/
def exampleReply (result : String) : String :=
  "\x7b\"jsonrpc\":\"2.0\",\"result\":\"" ++ result ++ "\",\"id\":1\x7d"

/-- A decoder that accepts exactly the replies carrying one of `results`. -/
def exampleUnmarshal (results : List String) (body : String) : Option NodeResponse :=
  match results.find? (fun r => exampleReply r == body) with
  | some r => some { JsonRpc := "2.0", Result := r, Id := 1 }
  | none => none

/-- The process environment with the two node URLs set and
`MAX_HEIGHT_DIFF` set to `maxDiff` when given. -/
def exampleEnv (maxDiff : Option String) (key : String) : Option String :=
  if key = "MAX_HEIGHT_DIFF" then maxDiff
  else if key = "REFERENCE_NODE_URL" then some "http://reference:8545"
  else if key = "NODE_URL" then some "http://node:8545"
  else none

/-- A world in which the reference node answers `refResult` and the node
under test answers `nodeResult`, both with status `200 OK`. -/
def answeringWorld (maxDiff : Option String) (refResult nodeResult : String) : World :=
  { env := exampleEnv maxDiff
    post := fun _ url =>
      if url = "http://reference:8545" then PostOutcome.response "200 OK" (exampleReply refResult)
      else PostOutcome.response "200 OK" (exampleReply nodeResult)
    unmarshal := exampleUnmarshal [refResult, nodeResult]
    overflowConv := -9223372036854775808 }

/-- A world in which every post fails at transport level. -/
def unreachableWorld (maxDiff : Option String) : World :=
  { env := exampleEnv maxDiff
    post := fun _ _ => PostOutcome.transportError "connection refused"
    unmarshal := exampleUnmarshal []
    overflowConv := -9223372036854775808 }

/-- A world in which the first and fourth posts are answered `1000` and all
others `1200`, whatever the URL. -/
def alternatingWorld : World :=
  { env := exampleEnv none
    post := fun k _ =>
      if k = 0 ∨ k = 3 then PostOutcome.response "200 OK" (exampleReply "1000")
      else PostOutcome.response "200 OK" (exampleReply "1200")
    unmarshal := exampleUnmarshal ["1000", "1200"]
    overflowConv := -9223372036854775808 }

/-- A world whose node answers with status `503 Service Unavailable`. -/
def failingStatusWorld : World :=
  { env := exampleEnv none
    post := fun _ _ => PostOutcome.response "503 Service Unavailable" (exampleReply "1000")
    unmarshal := exampleUnmarshal ["1000"]
    overflowConv := -9223372036854775808 }

/-- The state of a handler that has done nothing yet. -/
def initialState : State :=
  { posts := 0, trace := [] }

/-! ## Machine arithmetic -/

theorem wrapInt64_natAbs_neg_sub (a b : Int) :
    (wrapInt64 (a - b)).natAbs = (wrapInt64 (b - a)).natAbs := by
  unfold wrapInt64
  omega

theorem roundFloat64_small (n : Nat) (h : n < 2 ^ 53) : roundFloat64 n = n := by
  unfold roundFloat64
  rw [if_pos h]

theorem roundFloat64_two_pow_53 : roundFloat64 (2 ^ 53) = 2 ^ 53 := by
  have h : Nat.log2 (2 ^ 53) = 53 := Nat.log2_two_pow
  unfold roundFloat64
  rw [h]
  norm_num

theorem roundFloat64_tie_to_even : roundFloat64 9007199254740993 = 9007199254740992 := by
  have h : Nat.log2 9007199254740993 = 53 := by
    have h1 : ¬ (Nat.log2 9007199254740993 < 53) := by
      rw [Nat.log2_lt (by norm_num)]; norm_num
    have h2 : Nat.log2 9007199254740993 < 54 := by
      rw [Nat.log2_lt (by norm_num)]; norm_num
    omega
  unfold roundFloat64
  rw [h]
  norm_num

theorem roundFloat64_bounds (n : Nat) (h : 2 ^ 53 ≤ n) :
    2 ^ 53 ≤ roundFloat64 n ∧ (n < 9223372036854775296 → roundFloat64 n < 9223372036854775808) := by
  have hn0 : n ≠ 0 := by
    intro h0; rw [h0] at h; norm_num at h
  have hlo : 53 ≤ Nat.log2 n := by
    by_contra hc
    have : Nat.log2 n < 53 := by omega
    rw [Nat.log2_lt hn0] at this
    omega
  have hself : 2 ^ Nat.log2 n ≤ n := Nat.log2_self_le hn0
  have hlt : n < 2 ^ (Nat.log2 n + 1) := Nat.lt_log2_self
  obtain ⟨e, he⟩ : ∃ e, Nat.log2 n = 52 + e := ⟨Nat.log2 n - 52, by omega⟩
  have he1 : 1 ≤ e := by omega
  rw [he] at hself hlt
  have hpe : 0 < 2 ^ e := Nat.pos_pow_of_pos e (by norm_num)
  have hq1 : 2 ^ 52 ≤ n / 2 ^ e := by
    rw [Nat.le_div_iff_mul_le hpe, ← pow_add]; exact hself
  have hq2 : n / 2 ^ e < 2 ^ 53 := by
    rw [Nat.div_lt_iff_lt_mul hpe, ← pow_add]
    have : 53 + e = 52 + e + 1 := by omega
    rw [this]; exact hlt
  have hdm : 2 ^ e * (n / 2 ^ e) + n % 2 ^ e = n := Nat.div_add_mod n (2 ^ e)
  have hmod : n % 2 ^ e < 2 ^ e := Nat.mod_lt _ hpe
  have hge : 2 ^ 53 ≤ n / 2 ^ e * 2 ^ e := by
    have h2e : 2 ≤ 2 ^ e := by
      calc 2 = 2 ^ 1 := by norm_num
        _ ≤ 2 ^ e := Nat.pow_le_pow_right (by norm_num) he1
    calc 2 ^ 53 = 2 ^ 52 * 2 := by norm_num
      _ ≤ n / 2 ^ e * 2 ^ e := Nat.mul_le_mul hq1 h2e
  have hge2 : n / 2 ^ e * 2 ^ e ≤ (n / 2 ^ e + 1) * 2 ^ e :=
    Nat.mul_le_mul_right _ (by omega)
  have hnot : ¬ n < 2 ^ 53 := by omega
  have hE : Nat.log2 n - 52 = e := by omega
  constructor
  · unfold roundFloat64
    simp only [hnot, if_false, hE]
    split_ifs <;> omega
  · intro hup
    have he10 : e ≤ 10 := by
      by_contra hc
      have h63 : 2 ^ 63 ≤ 2 ^ (52 + e) := Nat.pow_le_pow_right (by norm_num) (by omega)
      have : (2:Nat) ^ 63 = 9223372036854775808 := by norm_num
      omega
    unfold roundFloat64
    simp only [hnot, if_false, hE]
    interval_cases e <;> norm_num at * <;> split_ifs <;> omega


/-! ## Digits -/

theorem lower_eq (c : Nat) : lower c = if c / 32 % 2 = 1 then c else c + 32 := by
  have h64 : ∀ r, r < 64 →
      (r ||| 32 = if r / 32 % 2 = 1 then r else r + 32) ∧ r ||| 32 < 64 := by decide
  have hsplit : ∀ a r, r < 64 → (2 ^ 6 * a + r) ||| 32 = 2 ^ 6 * a + (r ||| 32) := by
    intro a r hr
    rw [Nat.mul_add_lt_is_or (by omega) a, Nat.lor_assoc,
      ← Nat.mul_add_lt_is_or (h64 r hr).2 a]
  have hr : c % 64 < 64 := Nat.mod_lt _ (by norm_num)
  have hc : c = 2 ^ 6 * (c / 64) + c % 64 := by omega
  have h1 := hsplit (c / 64) (c % 64) hr
  rw [← hc] at h1
  have h2 := (h64 (c % 64) hr).1
  unfold lower
  rw [h1, h2]
  split_ifs <;> omega

theorem digitOf_dec (c : Char) (h : isDecDigit c) :
    digitOf c = some (digitVal c) ∧ digitVal c < 10 ∧ c ≠ '_' := by
  have h0 : '0'.toNat = 48 := rfl
  have h9 : '9'.toNat = 57 := rfl
  unfold isDecDigit at h
  rw [h0, h9] at h
  refine ⟨?_, ?_, ?_⟩
  · unfold digitOf digitVal
    rw [h0, h9, if_pos h, if_pos h]
  · unfold digitVal
    rw [h0, h9, if_pos h]
    omega
  · intro hc
    rw [hc] at h
    exact absurd h (by decide)

theorem digitOf_hex (c : Char) (h : isHexDigit c) :
    digitOf c = some (digitVal c) ∧ digitVal c < 16 ∧ c ≠ '_' := by
  have h0 : '0'.toNat = 48 := rfl
  have h9 : '9'.toNat = 57 := rfl
  have ha : 'a'.toNat = 97 := rfl
  have hf : 'f'.toNat = 102 := rfl
  have hz : 'z'.toNat = 122 := rfl
  have hA : 'A'.toNat = 65 := rfl
  have hF : 'F'.toNat = 70 := rfl
  have hl := lower_eq c.toNat
  unfold isHexDigit at h
  have hne : c ≠ '_' := by
    intro hc
    rw [hc] at h
    exact absurd h (by decide)
  rw [h0, h9, ha, hf, hA, hF] at h
  refine ⟨?_, ?_, hne⟩
  · unfold digitOf digitVal
    rw [h0, h9, ha, hz, hA]
    rcases h with h | h | h
    · rw [if_pos h, if_pos h]
    · have hd : ¬ (48 ≤ c.toNat ∧ c.toNat ≤ 57) := by omega
      have hlow : lower c.toNat = c.toNat := by
        rw [hl]; split_ifs <;> omega
      rw [if_neg hd, if_neg hd, hlow, if_pos (by omega), if_pos (by omega)]
    · have hd : ¬ (48 ≤ c.toNat ∧ c.toNat ≤ 57) := by omega
      have hlow : lower c.toNat = c.toNat + 32 := by
        rw [hl]; split_ifs <;> omega
      rw [if_neg hd, if_neg hd, hlow, if_pos (by omega), if_neg (by omega)]
      congr 1
  · unfold digitVal
    rw [h0, h9, ha, hz, hA]
    split_ifs <;> omega

theorem digitOf_not_dec (c : Char) (h : ¬ isDecDigit c) (d : Nat)
    (hd : digitOf c = some d) : 10 ≤ d := by
  unfold isDecDigit at h
  unfold digitOf at hd
  rw [if_neg h] at hd
  split_ifs at hd
  simp only [Option.some.injEq] at hd
  omega

theorem digitOf_not_hex (c : Char) (h : ¬ isHexDigit c) (d : Nat)
    (hd : digitOf c = some d) : 16 ≤ d := by
  have h0 : '0'.toNat = 48 := rfl
  have h9 : '9'.toNat = 57 := rfl
  have ha : 'a'.toNat = 97 := rfl
  have hf : 'f'.toNat = 102 := rfl
  have hz : 'z'.toNat = 122 := rfl
  have hA : 'A'.toNat = 65 := rfl
  have hF : 'F'.toNat = 70 := rfl
  have hl := lower_eq c.toNat
  unfold isHexDigit at h
  unfold digitOf at hd
  rw [h0, h9, ha, hf, hA, hF] at h
  rw [h0, h9, ha, hz] at hd
  split_ifs at hd with h1 h2
  · omega
  · simp only [Option.some.injEq] at hd
    rw [hl] at hd h2
    split_ifs at hd h2 <;> omega

theorem le_digitsValueFrom (b : Nat) (hb : 1 ≤ b) (ds : List Char) :
    ∀ n, n ≤ digitsValueFrom b n ds := by
  induction ds with
  | nil => intro n; exact Nat.le_refl n
  | cons c cs ih =>
    intro n
    unfold digitsValueFrom
    have h1 : n ≤ n * b := Nat.le_mul_of_pos_right n hb
    have h2 := ih (n * b + digitVal c)
    omega

/-- The loop of `ParseUint` on a run of digits of base 10 or 16: it ends with
the value the digits denote when that fits in 64 bits, and returns a range
error otherwise. -/
theorem parseLoop_digits (b : Nat) (hb : b = 10 ∨ b = 16) (base0 : Bool) (ds : List Char)
    (hds : ∀ c ∈ ds, digitOf c = some (digitVal c) ∧ digitVal c < b ∧ c ≠ '_') :
    ∀ n u, n < 18446744073709551616 →
      parseLoop b base0 (18446744073709551615 / b + 1) 18446744073709551615 n u ds =
        if digitsValueFrom b n ds < 18446744073709551616 then
          Sum.inl (digitsValueFrom b n ds, u)
        else Sum.inr (18446744073709551615, NumErr.ErrRange) := by
  induction ds with
  | nil =>
    intro n u hn
    simp [parseLoop, digitsValueFrom, hn]
  | cons c cs ih =>
    intro n u hn
    obtain ⟨hdig, hlt, hne⟩ := hds c (List.mem_cons_self c cs)
    have ih2 := ih (fun x hx => hds x (List.mem_cons_of_mem c hx))
    have hmono := le_digitsValueFrom b (by rcases hb with rfl | rfl <;> norm_num) cs
      (n * b + digitVal c)
    unfold parseLoop digitsValueFrom
    rw [if_neg (fun h => hne h.1), hdig]
    simp only [ge_iff_le, Nat.not_le.mpr hlt, if_false]
    unfold wrapUint64
    rcases hb with rfl | rfl
    · by_cases hcut : 18446744073709551615 / 10 + 1 ≤ n
      · rw [if_pos hcut, if_neg (by omega)]
      · rw [if_neg hcut]
        by_cases hov : n * 10 + digitVal c < 18446744073709551616
        · have e1 : n * 10 % 18446744073709551616 = n * 10 := by omega
          have e2 : (n * 10 + digitVal c) % 18446744073709551616 = n * 10 + digitVal c := by
            omega
          rw [e1, e2, if_neg (by omega)]
          exact ih2 _ u hov
        · rw [if_pos (by omega), if_neg (by omega)]
    · by_cases hcut : 18446744073709551615 / 16 + 1 ≤ n
      · rw [if_pos hcut, if_neg (by omega)]
      · rw [if_neg hcut]
        by_cases hov : n * 16 + digitVal c < 18446744073709551616
        · have e1 : n * 16 % 18446744073709551616 = n * 16 := by omega
          have e2 : (n * 16 + digitVal c) % 18446744073709551616 = n * 16 + digitVal c := by
            omega
          rw [e1, e2, if_neg (by omega)]
          exact ih2 _ u hov
        · rw [if_pos (by omega), if_neg (by omega)]

/-- The loop of `ParseUint` on a run of digits of base 10 or 16 whose value
fits in 64 bits, followed by a character that is no digit of the base (and no
skipped underscore): a syntax error. -/
theorem parseLoop_bad (b : Nat) (hb : b = 10 ∨ b = 16) (base0 : Bool) (ds : List Char)
    (c : Char) (rest : List Char)
    (hds : ∀ x ∈ ds, digitOf x = some (digitVal x) ∧ digitVal x < b ∧ x ≠ '_')
    (hc : ¬ (c = '_' ∧ base0 = true)) (hbad : ∀ d, digitOf c = some d → b ≤ d) :
    ∀ n u, digitsValueFrom b n ds < 18446744073709551616 →
      parseLoop b base0 (18446744073709551615 / b + 1) 18446744073709551615 n u
        (ds ++ c :: rest) = Sum.inr (0, NumErr.ErrSyntax) := by
  induction ds with
  | nil =>
    intro n u _
    rw [List.nil_append]
    unfold parseLoop
    rw [if_neg hc]
    cases hd : digitOf c with
    | none => rfl
    | some d =>
      have := hbad d hd
      simp only [ge_iff_le, this, if_true]
  | cons x xs ih =>
    intro n u hv
    obtain ⟨hdig, hlt, hne⟩ := hds x (List.mem_cons_self x xs)
    have ih2 := ih (fun y hy => hds y (List.mem_cons_of_mem x hy))
    unfold digitsValueFrom at hv
    have hmono := le_digitsValueFrom b (by rcases hb with rfl | rfl <;> norm_num) xs
      (n * b + digitVal x)
    rw [List.cons_append]
    unfold parseLoop
    rw [if_neg (fun h => hne h.1), hdig]
    simp only [ge_iff_le, Nat.not_le.mpr hlt, if_false]
    unfold wrapUint64
    rcases hb with rfl | rfl
    · have e1 : n * 10 % 18446744073709551616 = n * 10 := by omega
      have e2 : (n * 10 + digitVal x) % 18446744073709551616 = n * 10 + digitVal x := by
        omega
      rw [if_neg (by omega), e1, e2, if_neg (by omega)]
      exact ih2 _ u hv
    · have e1 : n * 16 % 18446744073709551616 = n * 16 := by omega
      have e2 : (n * 16 + digitVal x) % 18446744073709551616 = n * 16 + digitVal x := by
        omega
      rw [if_neg (by omega), e1, e2, if_neg (by omega)]
      exact ih2 _ u hv

/-! ## `ParseUint` and `ParseInt` on the strings `getLatestBlock` passes -/

theorem maxVal64 :
    wrapUint64 (wrapUint64 18446744073709551616 + 18446744073709551615)
      = 18446744073709551615 := by
  decide

/-- The call `ParseUint(s, 10, 64)` on a non-empty list of characters. -/
theorem ParseUint_dec (c0 : Char) (rest : List Char) :
    ParseUint (c0 :: rest) 10 64 =
      match parseLoop 10 false (18446744073709551615 / 10 + 1) 18446744073709551615 0 false
          (c0 :: rest) with
      | Sum.inr (v, e) => (v, some e)
      | Sum.inl (n, underscores) =>
        if underscores = true ∧ underscoreOK (c0 :: rest) = false then
          (0, some NumErr.ErrSyntax)
        else (n, none) := by
  simp [ParseUint, maxVal64]

/-- The call `ParseUint(s, 0, 64)` on `0x` followed by at least one character. -/
theorem ParseUint_hex (c2 : Char) (cs : List Char) :
    ParseUint ('0' :: 'x' :: c2 :: cs) 0 64 =
      match parseLoop 16 true (18446744073709551615 / 16 + 1) 18446744073709551615 0 false
          (c2 :: cs) with
      | Sum.inr (v, e) => (v, some e)
      | Sum.inl (n, underscores) =>
        if underscores = true ∧ underscoreOK ('0' :: 'x' :: c2 :: cs) = false then
          (0, some NumErr.ErrSyntax)
        else (n, none) := by
  have hx : lower 120 = 120 := by decide
  simp [ParseUint, maxVal64, hx]

theorem cutoff64 : wrapUint64 (2 ^ ((if 64 = 0 then 64 else 64) - 1)) = 9223372036854775808 := by
  decide

/-- The call `ParseInt(s, base, 64)` after the sign was picked off: the part of the
function below the call of `ParseUint`. -/
theorem ParseInt_unsigned (c0 : Char) (rest : List Char) (base : Nat)
    (hp : c0 ≠ '+') (hm : c0 ≠ '-') (un : Nat) (err : Option NumErr)
    (hu : ParseUint (c0 :: rest) base 64 = (un, err)) :
    ParseInt (c0 :: rest) base 64 =
      if err ≠ none ∧ err ≠ some NumErr.ErrRange then (0, err)
      else if 9223372036854775808 ≤ un then (9223372036854775807, some NumErr.ErrRange)
      else (Int.ofNat un, none) := by
  unfold ParseInt
  simp only [hp, hm, if_false, hu, decide_False]
  by_cases he : err ≠ none ∧ err ≠ some NumErr.ErrRange
  · rw [if_pos he, if_pos he]
  · rw [if_neg he, if_neg he, cutoff64]
    by_cases hge : 9223372036854775808 ≤ un
    · simp only [hge, ge_iff_le, and_self, if_true]
      rfl
    · have hw : wrapInt64 (Int.ofNat un) = Int.ofNat un := by
        unfold wrapInt64
        simp only [Int.ofNat_eq_coe]
        omega
      simp only [Int.ofNat_eq_coe] at hw
      simp [hge, hw]

theorem ParseInt_plus (rest : List Char) (base : Nat) (un : Nat) (err : Option NumErr)
    (hu : ParseUint rest base 64 = (un, err)) :
    ParseInt ('+' :: rest) base 64 =
      if err ≠ none ∧ err ≠ some NumErr.ErrRange then (0, err)
      else if 9223372036854775808 ≤ un then (9223372036854775807, some NumErr.ErrRange)
      else (Int.ofNat un, none) := by
  unfold ParseInt
  have hpm : ¬ ('+' = '-') := by decide
  simp only [if_true, hu, hpm, decide_False]
  by_cases he : err ≠ none ∧ err ≠ some NumErr.ErrRange
  · rw [if_pos he, if_pos he]
  · rw [if_neg he, if_neg he, cutoff64]
    by_cases hge : 9223372036854775808 ≤ un
    · simp only [hge, ge_iff_le, and_self, if_true]
      rfl
    · have hw : wrapInt64 (Int.ofNat un) = Int.ofNat un := by
        unfold wrapInt64
        simp only [Int.ofNat_eq_coe]
        omega
      simp only [Int.ofNat_eq_coe] at hw
      simp [hge, hw]

theorem ParseInt_minus (rest : List Char) (base : Nat) (un : Nat) (err : Option NumErr)
    (hu : ParseUint rest base 64 = (un, err)) :
    ParseInt ('-' :: rest) base 64 =
      if err ≠ none ∧ err ≠ some NumErr.ErrRange then (0, err)
      else if 9223372036854775808 < un then (-9223372036854775808, some NumErr.ErrRange)
      else (-(Int.ofNat un), none) := by
  unfold ParseInt
  have hpm : ¬ ('-' = '+') := by decide
  simp only [if_true, hu, hpm, if_false, decide_True]
  by_cases he : err ≠ none ∧ err ≠ some NumErr.ErrRange
  · rw [if_pos he, if_pos he]
  · rw [if_neg he, if_neg he, cutoff64]
    by_cases hgt : 9223372036854775808 < un
    · simp only [hgt, gt_iff_lt, and_self, if_true, Bool.true_eq_false, false_and, if_false]
      rfl
    · have hw : wrapInt64 (-wrapInt64 (Int.ofNat un)) = -(Int.ofNat un) := by
        unfold wrapInt64
        simp only [Int.ofNat_eq_coe]
        omega
      simp only [Int.ofNat_eq_coe] at hw
      simp [hgt, hw]

/-! ## Results of `ParseInt` by shape of the string -/

theorem ParseUint_dec_malformed (body : List Char) (h : MalformedDec body) :
    ParseUint body 10 64 = (0, some NumErr.ErrSyntax) := by
  rcases h with h | ⟨ds, c, rest, hb, hds, hv, hc⟩
  · rw [h]; rfl
  · have hL := parseLoop_bad 10 (Or.inl rfl) false ds c rest
      (fun x hx => digitOf_dec x (hds x hx)) (fun h => by simp at h)
      (fun d hd => digitOf_not_dec c hc d hd) 0 false hv
    rw [hb]
    cases ds with
    | nil =>
      rw [List.nil_append] at hL ⊢
      rw [ParseUint_dec, hL]
    | cons x xs =>
      rw [List.cons_append] at hL ⊢
      rw [ParseUint_dec, hL]

theorem ParseInt_dec_malformed (s : List Char) (h : MalformedDec (stripSign s)) :
    ParseInt s 10 64 = (0, some NumErr.ErrSyntax) := by
  cases s with
  | nil => rfl
  | cons c0 rest =>
    by_cases hp : c0 = '+'
    · subst hp
      have h1 : MalformedDec rest := by simpa [stripSign] using h
      rw [ParseInt_plus rest 10 _ _ (ParseUint_dec_malformed rest h1)]
      simp
    · by_cases hm : c0 = '-'
      · subst hm
        have h1 : MalformedDec rest := by simpa [stripSign] using h
        rw [ParseInt_minus rest 10 _ _ (ParseUint_dec_malformed rest h1)]
        simp
      · have h1 : MalformedDec (c0 :: rest) := by simpa [stripSign, hp, hm] using h
        rw [ParseInt_unsigned c0 rest 10 hp hm _ _ (ParseUint_dec_malformed _ h1)]
        simp

theorem ParseInt_hex_malformed (body : List Char) (h : MalformedHex body) :
    ParseInt ('0' :: 'x' :: body) 0 64 = (0, some NumErr.ErrSyntax) := by
  rcases h with h | ⟨ds, c, rest, hb, hds, hv, hc, hu⟩
  · rw [h]; decide
  · have hL := parseLoop_bad 16 (Or.inr rfl) true ds c rest
      (fun x hx => digitOf_hex x (hds x hx)) (fun h => hu h.1)
      (fun d hd => digitOf_not_hex c hc d hd) 0 false hv
    have hU : ParseUint ('0' :: 'x' :: body) 0 64 = (0, some NumErr.ErrSyntax) := by
      rw [hb]
      cases ds with
      | nil =>
        rw [List.nil_append] at hL ⊢
        rw [ParseUint_hex, hL]
      | cons x xs =>
        rw [List.cons_append] at hL ⊢
        rw [ParseUint_hex, hL]
    rw [ParseInt_unsigned '0' ('x' :: body) 0 (by decide) (by decide) _ _ hU]
    simp

theorem ParseUint_dec_digits (ds : List Char) (hne : ds ≠ []) (hds : ∀ c ∈ ds, isDecDigit c) :
    ParseUint ds 10 64 =
      if digitsValue 10 ds < 18446744073709551616 then (digitsValue 10 ds, none)
      else (18446744073709551615, some NumErr.ErrRange) := by
  have hL := parseLoop_digits 10 (Or.inl rfl) false ds
    (fun x hx => digitOf_dec x (hds x hx)) 0 false (by norm_num)
  cases ds with
  | nil => exact absurd rfl hne
  | cons x xs =>
    rw [ParseUint_dec, hL]
    unfold digitsValue
    split_ifs <;> simp

theorem ParseUint_hex_digits (ds : List Char) (hne : ds ≠ []) (hds : ∀ c ∈ ds, isHexDigit c) :
    ParseUint ('0' :: 'x' :: ds) 0 64 =
      if digitsValue 16 ds < 18446744073709551616 then (digitsValue 16 ds, none)
      else (18446744073709551615, some NumErr.ErrRange) := by
  have hL := parseLoop_digits 16 (Or.inr rfl) true ds
    (fun x hx => digitOf_hex x (hds x hx)) 0 false (by norm_num)
  cases ds with
  | nil => exact absurd rfl hne
  | cons x xs =>
    rw [ParseUint_hex, hL]
    unfold digitsValue
    split_ifs <;> simp

theorem ParseInt_dec_digits (ds : List Char) (hne : ds ≠ []) (hds : ∀ c ∈ ds, isDecDigit c) :
    ParseInt ds 10 64 =
      if digitsValue 10 ds < 9223372036854775808 then (Int.ofNat (digitsValue 10 ds), none)
      else (9223372036854775807, some NumErr.ErrRange) := by
  have hU := ParseUint_dec_digits ds hne hds
  cases ds with
  | nil => exact absurd rfl hne
  | cons x xs =>
    have hx := (digitOf_dec x (hds x (List.mem_cons_self x xs)))
    have hxd := hds x (List.mem_cons_self x xs)
    have hp : x ≠ '+' := by
      intro h; rw [h] at hxd; exact absurd hxd (by decide)
    have hm : x ≠ '-' := by
      intro h; rw [h] at hxd; exact absurd hxd (by decide)
    rw [ParseInt_unsigned x xs 10 hp hm (ParseUint (x :: xs) 10 64).1 (ParseUint (x :: xs) 10 64).2 rfl, hU]
    by_cases h64 : digitsValue 10 (x :: xs) < 18446744073709551616
    · rw [if_pos h64]
      by_cases h63 : digitsValue 10 (x :: xs) < 9223372036854775808
      · simp [h63]
      · simp [h63, Nat.le_of_not_lt h63]
    · have h63 : ¬ digitsValue 10 (x :: xs) < 9223372036854775808 := by omega
      simp [h64, h63]

theorem ParseInt_plus_dec_digits (ds : List Char) (hne : ds ≠ [])
    (hds : ∀ c ∈ ds, isDecDigit c) :
    ParseInt ('+' :: ds) 10 64 =
      if digitsValue 10 ds < 9223372036854775808 then (Int.ofNat (digitsValue 10 ds), none)
      else (9223372036854775807, some NumErr.ErrRange) := by
  rw [ParseInt_plus ds 10 (ParseUint ds 10 64).1 (ParseUint ds 10 64).2 rfl, ParseUint_dec_digits ds hne hds]
  by_cases h64 : digitsValue 10 ds < 18446744073709551616
  · rw [if_pos h64]
    by_cases h63 : digitsValue 10 ds < 9223372036854775808
    · simp [h63]
    · simp [h63, Nat.le_of_not_lt h63]
  · have h63 : ¬ digitsValue 10 ds < 9223372036854775808 := by omega
    simp [h64, h63]

theorem ParseInt_minus_dec_digits (ds : List Char) (hne : ds ≠ [])
    (hds : ∀ c ∈ ds, isDecDigit c) :
    ParseInt ('-' :: ds) 10 64 =
      if digitsValue 10 ds ≤ 9223372036854775808 then (-(Int.ofNat (digitsValue 10 ds)), none)
      else (-9223372036854775808, some NumErr.ErrRange) := by
  rw [ParseInt_minus ds 10 (ParseUint ds 10 64).1 (ParseUint ds 10 64).2 rfl, ParseUint_dec_digits ds hne hds]
  by_cases h64 : digitsValue 10 ds < 18446744073709551616
  · rw [if_pos h64]
    by_cases h63 : digitsValue 10 ds ≤ 9223372036854775808
    · simp [h63]
    · simp [h63, Nat.lt_of_not_le h63]
  · have h63 : ¬ digitsValue 10 ds ≤ 9223372036854775808 := by omega
    simp [h64, h63]

theorem ParseInt_hex_digits (ds : List Char) (hne : ds ≠ []) (hds : ∀ c ∈ ds, isHexDigit c) :
    ParseInt ('0' :: 'x' :: ds) 0 64 =
      if digitsValue 16 ds < 9223372036854775808 then (Int.ofNat (digitsValue 16 ds), none)
      else (9223372036854775807, some NumErr.ErrRange) := by
  rw [ParseInt_unsigned '0' ('x' :: ds) 0 (by decide) (by decide) (ParseUint ('0' :: ('x' :: ds)) 0 64).1 (ParseUint ('0' :: ('x' :: ds)) 0 64).2 rfl,
    ParseUint_hex_digits ds hne hds]
  by_cases h64 : digitsValue 16 ds < 18446744073709551616
  · rw [if_pos h64]
    by_cases h63 : digitsValue 16 ds < 9223372036854775808
    · simp [h63]
    · simp [h63, Nat.le_of_not_lt h63]
  · have h63 : ¬ digitsValue 16 ds < 9223372036854775808 := by omega
    simp [h64, h63]

/-- The loop of `ParseUint` on a run of digits of base 10 or 16 whose value
does not fit in 64 bits: a range error, whatever characters follow the run. -/
theorem parseLoop_overflow (b : Nat) (hb : b = 10 ∨ b = 16) (base0 : Bool) (ds : List Char)
    (rest : List Char)
    (hds : ∀ x ∈ ds, digitOf x = some (digitVal x) ∧ digitVal x < b ∧ x ≠ '_') :
    ∀ n u, n < 18446744073709551616 → 18446744073709551616 ≤ digitsValueFrom b n ds →
      parseLoop b base0 (18446744073709551615 / b + 1) 18446744073709551615 n u
        (ds ++ rest) = Sum.inr (18446744073709551615, NumErr.ErrRange) := by
  induction ds with
  | nil =>
    intro n u hn hv
    unfold digitsValueFrom at hv
    omega
  | cons x xs ih =>
    intro n u hn hv
    obtain ⟨hdig, hlt, hne⟩ := hds x (List.mem_cons_self x xs)
    have ih2 := ih (fun y hy => hds y (List.mem_cons_of_mem x hy))
    unfold digitsValueFrom at hv
    rw [List.cons_append]
    unfold parseLoop
    rw [if_neg (fun h => hne h.1), hdig]
    simp only [ge_iff_le, Nat.not_le.mpr hlt, if_false]
    unfold wrapUint64
    rcases hb with rfl | rfl
    · by_cases hcut : 18446744073709551615 / 10 + 1 ≤ n
      · rw [if_pos hcut]
      · rw [if_neg hcut]
        by_cases hov : n * 10 + digitVal x < 18446744073709551616
        · have e1 : n * 10 % 18446744073709551616 = n * 10 := by omega
          have e2 : (n * 10 + digitVal x) % 18446744073709551616 = n * 10 + digitVal x := by
            omega
          rw [e1, e2, if_neg (by omega)]
          exact ih2 _ u hov hv
        · rw [if_pos (by omega)]
    · by_cases hcut : 18446744073709551615 / 16 + 1 ≤ n
      · rw [if_pos hcut]
      · rw [if_neg hcut]
        by_cases hov : n * 16 + digitVal x < 18446744073709551616
        · have e1 : n * 16 % 18446744073709551616 = n * 16 := by omega
          have e2 : (n * 16 + digitVal x) % 18446744073709551616 = n * 16 + digitVal x := by
            omega
          rw [e1, e2, if_neg (by omega)]
          exact ih2 _ u hov hv
        · rw [if_pos (by omega)]

/-- The call `ParseUint(s, 10, 64)` on decimal digits whose value exceeds
`2^64 - 1`, followed by any characters: the range error is reported before
the later characters are looked at. -/
theorem ParseUint_dec_overflow (ds rest : List Char) (hds : ∀ c ∈ ds, isDecDigit c)
    (hv : 18446744073709551615 < digitsValue 10 ds) :
    ParseUint (ds ++ rest) 10 64 = (18446744073709551615, some NumErr.ErrRange) := by
  have hL := parseLoop_overflow 10 (Or.inl rfl) false ds rest
    (fun x hx => digitOf_dec x (hds x hx)) 0 false (by norm_num)
    (by unfold digitsValue at hv; omega)
  cases ds with
  | nil =>
    unfold digitsValue digitsValueFrom at hv
    omega
  | cons x xs =>
    rw [List.cons_append] at hL ⊢
    rw [ParseUint_dec, hL]

/-- The call `ParseInt(s, 10, 64)` on a minus sign, decimal digits whose value
exceeds `2^64 - 1`, and any further characters: `-2^63` with a range error. -/
theorem ParseInt_minus_dec_overflow (ds rest : List Char) (hds : ∀ c ∈ ds, isDecDigit c)
    (hv : 18446744073709551615 < digitsValue 10 ds) :
    ParseInt ('-' :: (ds ++ rest)) 10 64 = (-9223372036854775808, some NumErr.ErrRange) := by
  rw [ParseInt_minus (ds ++ rest) 10 _ _ (ParseUint_dec_overflow ds rest hds hv)]
  simp

/-- A string without a leading minus sign never parses to a negative number. -/
theorem ParseInt_nonneg (s : List Char) (base : Nat) (h : s.head? ≠ some '-') :
    0 ≤ (ParseInt s base 64).1 := by
  cases s with
  | nil => exact Int.le_refl 0
  | cons c0 rest =>
    have hm : c0 ≠ '-' := by
      intro hc; apply h; rw [hc]; rfl
    by_cases hp : c0 = '+'
    · subst hp
      rw [ParseInt_plus rest base (ParseUint rest base 64).1 (ParseUint rest base 64).2 rfl]
      split_ifs
      · exact Int.le_refl 0
      · norm_num
      · exact Int.ofNat_nonneg _
    · rw [ParseInt_unsigned c0 rest base hp hm (ParseUint (c0 :: rest) base 64).1 (ParseUint (c0 :: rest) base 64).2 rfl]
      split_ifs
      · exact Int.le_refl 0
      · norm_num
      · exact Int.ofNat_nonneg _

/-- On a syntax error `ParseInt` returns 0; on a range error it returns the
nearest bound of `int64`. -/
theorem ParseInt_error_value (s : List Char) (base : Nat) :
    ((ParseInt s base 64).2 = some NumErr.ErrSyntax → (ParseInt s base 64).1 = 0) ∧
    ((ParseInt s base 64).2 = some NumErr.ErrRange →
      (ParseInt s base 64).1 = 9223372036854775807 ∨
      (ParseInt s base 64).1 = -9223372036854775808) := by
  cases s with
  | nil => exact ⟨fun _ => rfl, fun h => by simp [ParseInt] at h⟩
  | cons c0 rest =>
    by_cases hp : c0 = '+'
    · subst hp
      rw [ParseInt_plus rest base (ParseUint rest base 64).1 (ParseUint rest base 64).2 rfl]
      split_ifs with h1 h2
      · exact ⟨fun _ => rfl, fun h => absurd h h1.2⟩
      · exact ⟨fun h => by simp at h, fun _ => Or.inl rfl⟩
      · exact ⟨fun h => by simp at h, fun h => by simp at h⟩
    · by_cases hm : c0 = '-'
      · subst hm
        rw [ParseInt_minus rest base (ParseUint rest base 64).1 (ParseUint rest base 64).2 rfl]
        split_ifs with h1 h2
        · exact ⟨fun _ => rfl, fun h => absurd h h1.2⟩
        · exact ⟨fun h => by simp at h, fun _ => Or.inr rfl⟩
        · exact ⟨fun h => by simp at h, fun h => by simp at h⟩
      · rw [ParseInt_unsigned c0 rest base hp hm (ParseUint (c0 :: rest) base 64).1 (ParseUint (c0 :: rest) base 64).2 rfl]
        split_ifs with h1 h2
        · exact ⟨fun _ => rfl, fun h => absurd h h1.2⟩
        · exact ⟨fun h => by simp at h, fun _ => Or.inl rfl⟩
        · exact ⟨fun h => by simp at h, fun h => by simp at h⟩

/-! ## The block number query -/

theorem getLatestBlock_ok (w : World) (nodeUrl : String) (s : State) (body : String)
    (resp : NodeResponse) (hpost : w.post s.posts nodeUrl = PostOutcome.response "200 OK" body)
    (hjson : w.unmarshal body = some resp) :
    (getLatestBlock w nodeUrl s).1 =
      if HasPrefix resp.Result "0x" = true then (ParseInt resp.Result.data 0 64).1
      else (ParseInt resp.Result.data 10 64).1 := by
  unfold getLatestBlock
  simp only [hpost, hjson, ne_eq, not_true_eq_false, if_false]
  split_ifs <;> rfl

theorem getLatestBlock_fail (w : World) (nodeUrl : String) (s : State)
    (h : queryFails w nodeUrl s) : (getLatestBlock w nodeUrl s).1 = 0 := by
  unfold queryFails at h
  unfold getLatestBlock
  cases hp : w.post s.posts nodeUrl with
  | transportError err => rfl
  | response status body =>
    rw [hp] at h
    simp only at h ⊢
    by_cases hs : status ≠ "200 OK"
    · rw [if_pos hs]
    · rw [if_neg hs]
      rcases h with h | h
      · exact absurd h hs
      · rw [h]

theorem getLatestBlock_posts (w : World) (nodeUrl : String) (s : State) :
    (getLatestBlock w nodeUrl s).2.posts = s.posts + 1 := by
  unfold getLatestBlock
  cases w.post s.posts nodeUrl with
  | transportError err => rfl
  | response status body =>
    simp only
    split_ifs
    · rfl
    · cases w.unmarshal body with
      | none => rfl
      | some resp =>
        simp only
        split_ifs <;> rfl

theorem connEvents_append (a b : List Event) :
    connEvents (a ++ b) = connEvents a ++ connEvents b := by
  unfold connEvents
  exact List.filter_append a b

theorem postCount_append (a b : List Event) :
    postCount (a ++ b) = postCount a + postCount b := by
  unfold postCount
  rw [List.filter_append, List.length_append]

theorem getLatestBlock_trace (w : World) (nodeUrl : String) (s : State) :
    connEvents (getLatestBlock w nodeUrl s).2.trace = connEvents s.trace ∧
    postCount (getLatestBlock w nodeUrl s).2.trace = postCount s.trace + 1 := by
  unfold getLatestBlock
  cases w.post s.posts nodeUrl with
  | transportError err =>
    simp [State.emit, connEvents_append, postCount_append, connEvents, postCount]
  | response status body =>
    simp only
    split_ifs
    · simp [State.emit, connEvents_append, postCount_append, connEvents, postCount]
    · cases w.unmarshal body with
      | none => simp [State.emit, connEvents_append, postCount_append, connEvents, postCount]
      | some resp =>
        simp only
        split_ifs <;> simp [connEvents_append, postCount_append, connEvents, postCount]

theorem HasPrefix_hex (res : String) (body : List Char) (h : res.data = '0' :: 'x' :: body) :
    HasPrefix res "0x" = true := by
  unfold HasPrefix
  rw [h]
  show ['0', 'x'].isPrefixOf ('0' :: 'x' :: body) = true
  simp [List.isPrefixOf]

theorem HasPrefix_dec (res : String) (h : ∀ c ∈ res.data, isDecDigit c) :
    HasPrefix res "0x" = false := by
  unfold HasPrefix
  cases hd : res.data with
  | nil => rfl
  | cons c0 rest =>
    cases rest with
    | nil =>
      show ['0', 'x'].isPrefixOf [c0] = false
      simp [List.isPrefixOf]
    | cons c1 rest2 =>
      have h1 : isDecDigit c1 := h c1 (by rw [hd]; simp)
      have hx : c1 ≠ 'x' := by
        intro hc; rw [hc] at h1; exact absurd h1 (by decide)
      show ['0', 'x'].isPrefixOf (c0 :: c1 :: rest2) = false
      simp [List.isPrefixOf, hx, Ne.symm hx]

/-! ## The health evaluator -/

theorem mathAbs_float64OfInt64 (x : Int) :
    mathAbs (float64OfInt64 x) = Int.ofNat (roundFloat64 x.natAbs) := by
  unfold mathAbs float64OfInt64
  split_ifs <;> simp

theorem checkHealth_verdict (w : World) (s : State) :
    (checkHealth w s).1 =
      decide (int64OfFloat64 w.overflowConv (Int.ofNat (roundFloat64 (wrapInt64
        ((getLatestBlock w (getEnv w "REFERENCE_NODE_URL" "localhost:8545") s).1 -
          (getLatestBlock w (getEnv w "NODE_URL" "localhost:8545")
            (getLatestBlock w (getEnv w "REFERENCE_NODE_URL" "localhost:8545") s).2).1)).natAbs))
        ≤ (ParseInt (getEnv w "MAX_HEIGHT_DIFF" "100").data 10 64).1) := by
  unfold checkHealth
  simp only [mathAbs_float64OfInt64]

theorem checkHealth_trace (w : World) (s : State) :
    connEvents (checkHealth w s).2.trace = connEvents s.trace ∧
    postCount (checkHealth w s).2.trace = postCount s.trace + 2 := by
  unfold checkHealth
  simp only
  have h1 := getLatestBlock_trace w (getEnv w "REFERENCE_NODE_URL" "localhost:8545") s
  have h2 := getLatestBlock_trace w (getEnv w "NODE_URL" "localhost:8545")
    (getLatestBlock w (getEnv w "REFERENCE_NODE_URL" "localhost:8545") s).2
  exact ⟨h2.1.trans h1.1, by rw [h2.2, h1.2]⟩

/-- The height difference computed by `checkHealth` is exact up to `2 ^ 53`. -/
theorem diff_exact (ovf x : Int) (hx : x.natAbs ≤ 9007199254740992) :
    int64OfFloat64 ovf (Int.ofNat (roundFloat64 x.natAbs)) = Int.ofNat x.natAbs := by
  have hr : roundFloat64 x.natAbs = x.natAbs := by
    rcases Nat.lt_or_ge x.natAbs 9007199254740992 with h | h
    · exact roundFloat64_small _ (by norm_num; exact h)
    · have he : x.natAbs = 2 ^ 53 := by norm_num; omega
      rw [he]; exact roundFloat64_two_pow_53
  rw [hr]
  unfold int64OfFloat64
  rw [if_pos]
  simp only [Int.ofNat_eq_coe]
  omega

/-- Beyond `2 ^ 53` and below `2 ^ 63 - 512` the computed difference is
rounded, yet stays at least `2 ^ 53`. -/
theorem diff_large (ovf x : Int) (h1 : 9007199254740992 ≤ x.natAbs)
    (h2 : x.natAbs < 9223372036854775296) :
    9007199254740992 ≤ int64OfFloat64 ovf (Int.ofNat (roundFloat64 x.natAbs)) := by
  have hb := roundFloat64_bounds x.natAbs (by norm_num; exact h1)
  have hlo : 9007199254740992 ≤ roundFloat64 x.natAbs := by
    have := hb.1; norm_num at this; exact this
  have hhi := hb.2 h2
  unfold int64OfFloat64
  rw [if_pos]
  · simp only [Int.ofNat_eq_coe]; omega
  · simp only [Int.ofNat_eq_coe]; omega

/-! ## Claims about the health evaluator -/

/-- C1 (as stated, refuted): with reference height `2^63 - 1`, target height
`-2^63` and tolerance 1 the subtraction wraps around to `-1`, so `checkHealth`
answers healthy although the heights are `2^64 - 1` apart. -/
theorem checkHealth_wraps_around :
    (getLatestBlock (answeringWorld (some "1") "9223372036854775807" "-9223372036854775808")
        "http://reference:8545" initialState).1 = 9223372036854775807 ∧
    (getLatestBlock (answeringWorld (some "1") "9223372036854775807" "-9223372036854775808")
        "http://node:8545"
        (getLatestBlock (answeringWorld (some "1") "9223372036854775807" "-9223372036854775808")
          "http://reference:8545" initialState).2).1 = -9223372036854775808 ∧
    (ParseInt (getEnv (answeringWorld (some "1") "9223372036854775807" "-9223372036854775808")
        "MAX_HEIGHT_DIFF" "100").data 10 64).1 = 1 ∧
    (checkHealth (answeringWorld (some "1") "9223372036854775807" "-9223372036854775808")
        initialState).1 = true ∧
    ¬ (|(9223372036854775807 : Int) - (-9223372036854775808)| ≤ 1) := by
  refine ⟨by decide, by decide, by decide, by decide, by norm_num⟩

/-- C1 (amended): when the two heights are at most `2^53` apart, or the
tolerance is below `2^53` and the heights are less than `2^63 - 512` apart,
`checkHealth` answers healthy exactly when `|r - t| ≤ maxDiff`; the
comparison is inclusive. -/
theorem checkHealth_iff_within (w : World) (s : State) (r t maxDiff : Int)
    (hr : (getLatestBlock w (getEnv w "REFERENCE_NODE_URL" "localhost:8545") s).1 = r)
    (ht : (getLatestBlock w (getEnv w "NODE_URL" "localhost:8545")
      (getLatestBlock w (getEnv w "REFERENCE_NODE_URL" "localhost:8545") s).2).1 = t)
    (hm : (ParseInt (getEnv w "MAX_HEIGHT_DIFF" "100").data 10 64).1 = maxDiff)
    (hrange : |r - t| ≤ 9007199254740992 ∨
      (maxDiff < 9007199254740992 ∧ |r - t| < 9223372036854775296)) :
    (checkHealth w s).1 = true ↔ |r - t| ≤ maxDiff := by
  rw [checkHealth_verdict, hr, ht, hm, decide_eq_true_iff]
  have habs : |r - t| = Int.ofNat (r - t).natAbs := by
    rw [Int.abs_eq_natAbs]; rfl
  rw [habs] at hrange ⊢
  simp only [Int.ofNat_eq_coe] at hrange
  have hw : wrapInt64 (r - t) = r - t := by
    unfold wrapInt64
    omega
  rw [hw]
  by_cases hsmall : (r - t).natAbs ≤ 9007199254740992
  · rw [diff_exact w.overflowConv (r - t) hsmall]
  · have hbig := diff_large w.overflowConv (r - t) (by omega) (by omega)
    simp only [Int.ofNat_eq_coe] at hbig ⊢
    constructor <;> intro h <;> omega

/-- C1 (amended), at the specification's example: tolerance 100, heights 1000
and 1050. -/
theorem checkHealth_iff_within_witness :
    (checkHealth (answeringWorld none "1000" "1050") initialState).1 = true ↔
      |(1000 : Int) - 1050| ≤ 100 :=
  checkHealth_iff_within (answeringWorld none "1000" "1050") initialState 1000 1050 100
    (by decide) (by decide) (by decide) (Or.inl (by norm_num))

/-- C9: the verdict does not depend on which of the two nodes reports which
height: a health check in which the reference reports `a` and the target `b`
and one (in the same world) in which the reference reports `b` and the target
`a` give the same verdict. -/
theorem checkHealth_symmetric (w : World) (s s' : State) (a b : Int)
    (h1 : (getLatestBlock w (getEnv w "REFERENCE_NODE_URL" "localhost:8545") s).1 = a)
    (h2 : (getLatestBlock w (getEnv w "NODE_URL" "localhost:8545")
      (getLatestBlock w (getEnv w "REFERENCE_NODE_URL" "localhost:8545") s).2).1 = b)
    (h3 : (getLatestBlock w (getEnv w "REFERENCE_NODE_URL" "localhost:8545") s').1 = b)
    (h4 : (getLatestBlock w (getEnv w "NODE_URL" "localhost:8545")
      (getLatestBlock w (getEnv w "REFERENCE_NODE_URL" "localhost:8545") s').2).1 = a) :
    (checkHealth w s).1 = (checkHealth w s').1 := by
  rw [checkHealth_verdict, checkHealth_verdict, h1, h2, h3, h4,
    wrapInt64_natAbs_neg_sub a b]

/-- C9, at heights 1000 and 1200 in either order. -/
theorem checkHealth_symmetric_witness :
    (checkHealth alternatingWorld initialState).1 =
      (checkHealth alternatingWorld { posts := 2, trace := [] }).1 :=
  checkHealth_symmetric alternatingWorld initialState { posts := 2, trace := [] } 1000 1200
    (by decide) (by decide) (by decide) (by decide)

/-- Whether a query fails depends on the state only through the number of
posts issued before it. -/
theorem queryFails_posts (w : World) (nodeUrl : String) (s s' : State)
    (h : s.posts = s'.posts) (hf : queryFails w nodeUrl s) : queryFails w nodeUrl s' := by
  unfold queryFails at hf ⊢
  rw [← h]
  exact hf

/-- When both queries of a health check fail, the verdict is healthy exactly
when the parsed tolerance is not negative. -/
theorem checkHealth_fail_iff (w : World) (s : State)
    (h1 : queryFails w (getEnv w "REFERENCE_NODE_URL" "localhost:8545") s)
    (h2 : queryFails w (getEnv w "NODE_URL" "localhost:8545")
      (getLatestBlock w (getEnv w "REFERENCE_NODE_URL" "localhost:8545") s).2) :
    (checkHealth w s).1 = true ↔
      0 ≤ (ParseInt (getEnv w "MAX_HEIGHT_DIFF" "100").data 10 64).1 := by
  rw [checkHealth_verdict, getLatestBlock_fail w _ s h1, getLatestBlock_fail w _ _ h2,
    decide_eq_true_iff]
  have hz : wrapInt64 (0 - 0) = 0 := by decide
  rw [hz, diff_exact w.overflowConv 0 (by decide)]
  rfl

/-- The effects on the connection of a handler that reads a line and gets the
verdict healthy. -/
theorem handleRequest_up (w : World) (conn : Conn) (s : State)
    (hread : '\n' ∈ conn.incoming)
    (hup : (checkHealth w (s.emit (Event.connWrite "\n"))).1 = true) :
    connEvents (handleRequest w conn s).trace =
      connEvents s.trace ++
        [Event.connWrite "\n", Event.connWrite "up\n", Event.connClose] := by
  unfold handleRequest
  have hok : (ReadString conn '\n').2 = none := by
    unfold ReadString
    rw [if_pos hread]
  rw [hok]
  simp only
  have ht := (checkHealth_trace w (s.emit (Event.connWrite "\n"))).1
  have hemit : ∀ (x : State) (e : Event),
      connEvents (x.emit e).trace = connEvents x.trace ++ connEvents [e] := by
    intro x e
    unfold State.emit
    exact connEvents_append x.trace [e]
  rw [if_pos hup, hemit, hemit, ht, hemit, List.append_assoc, List.append_assoc]
  rfl

/-- C10 (as stated, refuted): with both nodes unreachable and `MAX_HEIGHT_DIFF`
set to the non-numeric string `-99999999999999999999abc`, the tolerance is
`-2^63`, not 0, and `checkHealth` answers unhealthy. -/
theorem checkHealth_unreachable_nonnumeric :
    (unreachableWorld (some "-99999999999999999999abc")).post 0 "http://reference:8545"
      = PostOutcome.transportError "connection refused" ∧
    (unreachableWorld (some "-99999999999999999999abc")).post 1 "http://node:8545"
      = PostOutcome.transportError "connection refused" ∧
    (ParseInt (getEnv (unreachableWorld (some "-99999999999999999999abc"))
      "MAX_HEIGHT_DIFF" "100").data 10 64).1 = -9223372036854775808 ∧
    (checkHealth (unreachableWorld (some "-99999999999999999999abc")) initialState).1
      = false := by
  refine ⟨by decide, by decide, by decide, by decide⟩

/-- C10 (amended): when both block-number queries of a health check fail,
`checkHealth` answers healthy exactly when the parsed tolerance is not
negative.  That is the case when `MAX_HEIGHT_DIFF` is unset (default 100),
when its value does not start with a minus sign (numeric or not), and when
the parser rejects its value with a syntax error (tolerance 0).  It answers
unhealthy for every value made of a minus sign, decimal digits whose value
exceeds `2^64 - 1`, and any further characters: the tolerance is then `-2^63`.
A handler whose read succeeds and whose tolerance is not negative answers the
probe with a newline and `up`, then closes. -/
theorem checkHealth_both_fail (w : World) (s : State)
    (h1 : queryFails w (getEnv w "REFERENCE_NODE_URL" "localhost:8545") s)
    (h2 : queryFails w (getEnv w "NODE_URL" "localhost:8545")
      (getLatestBlock w (getEnv w "REFERENCE_NODE_URL" "localhost:8545") s).2) :
    ((checkHealth w s).1 = true ↔
      0 ≤ (ParseInt (getEnv w "MAX_HEIGHT_DIFF" "100").data 10 64).1) ∧
    (w.env "MAX_HEIGHT_DIFF" = none → (checkHealth w s).1 = true) ∧
    (∀ v, w.env "MAX_HEIGHT_DIFF" = some v → v.data.head? ≠ some '-' →
      (checkHealth w s).1 = true) ∧
    (∀ v, w.env "MAX_HEIGHT_DIFF" = some v →
      (ParseInt v.data 10 64).2 = some NumErr.ErrSyntax → (checkHealth w s).1 = true) ∧
    (∀ v ds rest, w.env "MAX_HEIGHT_DIFF" = some v → v.data = '-' :: (ds ++ rest) →
      (∀ c ∈ ds, isDecDigit c) → 18446744073709551615 < digitsValue 10 ds →
      (ParseInt (getEnv w "MAX_HEIGHT_DIFF" "100").data 10 64).1 = -9223372036854775808 ∧
      (checkHealth w s).1 = false) ∧
    (∀ conn : Conn, '\n' ∈ conn.incoming →
      0 ≤ (ParseInt (getEnv w "MAX_HEIGHT_DIFF" "100").data 10 64).1 →
      connEvents (handleRequest w conn s).trace =
        connEvents s.trace ++
          [Event.connWrite "\n", Event.connWrite "up\n", Event.connClose]) := by
  have hiff := checkHealth_fail_iff w s h1 h2
  refine ⟨hiff, ?_, ?_, ?_, ?_, ?_⟩
  · intro hnone
    rw [hiff]
    unfold getEnv
    rw [hnone]
    decide
  · intro v hv hhead
    rw [hiff]
    unfold getEnv
    rw [hv]
    exact ParseInt_nonneg v.data 10 hhead
  · intro v hv hsyn
    rw [hiff]
    unfold getEnv
    rw [hv]
    simp only
    rw [(ParseInt_error_value v.data 10).1 hsyn]
  · intro v ds rest hv hshape hds hbig
    have htol : (ParseInt (getEnv w "MAX_HEIGHT_DIFF" "100").data 10 64).1
        = -9223372036854775808 := by
      unfold getEnv
      rw [hv]
      simp only
      rw [hshape, ParseInt_minus_dec_overflow ds rest hds hbig]
    refine ⟨htol, ?_⟩
    rw [htol] at hiff
    cases hc : (checkHealth w s).1 with
    | false => rfl
    | true => exact absurd (hiff.mp hc) (by decide)
  · intro conn hread htol
    have g1 : queryFails w (getEnv w "REFERENCE_NODE_URL" "localhost:8545")
        (s.emit (Event.connWrite "\n")) :=
      queryFails_posts w _ s _ rfl h1
    have g2 : queryFails w (getEnv w "NODE_URL" "localhost:8545")
        (getLatestBlock w (getEnv w "REFERENCE_NODE_URL" "localhost:8545")
          (s.emit (Event.connWrite "\n"))).2 :=
      queryFails_posts w _ _ _
        (by rw [getLatestBlock_posts, getLatestBlock_posts]; rfl) h2
    exact handleRequest_up w conn s hread
      ((checkHealth_fail_iff w (s.emit (Event.connWrite "\n")) g1 g2).mpr htol)

/-- C10 (amended), with both nodes unreachable and the default tolerance. -/
theorem checkHealth_both_fail_witness :
    (checkHealth (unreachableWorld none) initialState).1 = true :=
  (checkHealth_both_fail (unreachableWorld none) initialState trivial trivial).2.1 rfl

/-! ## Claims about the block number query -/

/-- C2: a reply whose result is `0x` followed by one or more hexadecimal
digits (of either case) denoting a value below `2^63` makes `getLatestBlock`
return exactly that value. -/
theorem getLatestBlock_hex (w : World) (nodeUrl : String) (s : State) (body : String)
    (resp : NodeResponse) (ds : List Char)
    (hpost : w.post s.posts nodeUrl = PostOutcome.response "200 OK" body)
    (hjson : w.unmarshal body = some resp)
    (hres : resp.Result.data = '0' :: 'x' :: ds) (hne : ds ≠ [])
    (hds : ∀ c ∈ ds, isHexDigit c) (hv : digitsValue 16 ds < 9223372036854775808) :
    (getLatestBlock w nodeUrl s).1 = Int.ofNat (digitsValue 16 ds) := by
  rw [getLatestBlock_ok w nodeUrl s body resp hpost hjson,
    if_pos (HasPrefix_hex resp.Result ds hres), hres, ParseInt_hex_digits ds hne hds,
    if_pos hv]

/-- C2, at the specification's example: `0x3E8` gives 1000. -/
theorem getLatestBlock_hex_witness :
    (getLatestBlock (answeringWorld none "0x3E8" "0x3E8") "http://node:8545" initialState).1
      = 1000 :=
  getLatestBlock_hex (answeringWorld none "0x3E8" "0x3E8") "http://node:8545" initialState
    (exampleReply "0x3E8") { JsonRpc := "2.0", Result := "0x3E8", Id := 1 } ['3', 'E', '8']
    (by decide) (by decide) (by decide) (by decide) (by decide) (by decide)

/-- C3: a reply whose result is a non-empty sequence of decimal digits (such
a string never begins with `0x`) denoting a value below `2^63` makes
`getLatestBlock` return exactly that value. -/
theorem getLatestBlock_dec (w : World) (nodeUrl : String) (s : State) (body : String)
    (resp : NodeResponse)
    (hpost : w.post s.posts nodeUrl = PostOutcome.response "200 OK" body)
    (hjson : w.unmarshal body = some resp)
    (hne : resp.Result.data ≠ []) (hds : ∀ c ∈ resp.Result.data, isDecDigit c)
    (hv : digitsValue 10 resp.Result.data < 9223372036854775808) :
    HasPrefix resp.Result "0x" = false ∧
    (getLatestBlock w nodeUrl s).1 = Int.ofNat (digitsValue 10 resp.Result.data) := by
  have hpre := HasPrefix_dec resp.Result hds
  refine ⟨hpre, ?_⟩
  rw [getLatestBlock_ok w nodeUrl s body resp hpost hjson, hpre,
    if_neg (by decide), ParseInt_dec_digits _ hne hds, if_pos hv]

/-- C3, at the specification's example: `1000` gives 1000. -/
theorem getLatestBlock_dec_witness :
    (getLatestBlock (answeringWorld none "1000" "1000") "http://node:8545" initialState).1
      = 1000 :=
  (getLatestBlock_dec (answeringWorld none "1000" "1000") "http://node:8545" initialState
    (exampleReply "1000") { JsonRpc := "2.0", Result := "1000", Id := 1 }
    (by decide) (by decide) (by decide) (by decide) (by decide)).2

/-- C4 (as stated, refuted): the result `9223372036854775808` does not fit
in a signed 64-bit integer, the parser reports a range error, and
`getLatestBlock` returns `2^63 - 1`, not 0. -/
theorem getLatestBlock_out_of_range :
    (ParseInt "9223372036854775808".data 10 64).2 = some NumErr.ErrRange ∧
    (getLatestBlock (answeringWorld none "9223372036854775808" "0")
      "http://reference:8545" initialState).1 = 9223372036854775807 := by
  refine ⟨by decide, by decide⟩

/-- C4 (amended): for a successfully received reply, `getLatestBlock` returns
0 when the parser reports a syntax error, which it does when the result
(decimal form: after an optional sign; hexadecimal form: after `0x`) is empty
or is a run of digits of the base with a value below `2^64` followed by a
character that is no digit of the base (nor, in hexadecimal form, an
underscore).  When the result is all digits of its base but its value does
not fit in a signed 64-bit integer, it returns the nearest bound instead:
`2^63 - 1`, or `-2^63` after a minus sign. -/
theorem getLatestBlock_parse_failure (w : World) (nodeUrl : String) (s : State)
    (body : String) (resp : NodeResponse)
    (hpost : w.post s.posts nodeUrl = PostOutcome.response "200 OK" body)
    (hjson : w.unmarshal body = some resp) :
    (HasPrefix resp.Result "0x" = false → MalformedDec (stripSign resp.Result.data) →
      (getLatestBlock w nodeUrl s).1 = 0) ∧
    (∀ hexBody, resp.Result.data = '0' :: 'x' :: hexBody → MalformedHex hexBody →
      (getLatestBlock w nodeUrl s).1 = 0) ∧
    (∀ ds, ds ≠ [] → (∀ c ∈ ds, isDecDigit c) → 9223372036854775808 ≤ digitsValue 10 ds →
      (resp.Result.data = ds ∨ resp.Result.data = '+' :: ds) →
      (getLatestBlock w nodeUrl s).1 = 9223372036854775807) ∧
    (∀ ds, ds ≠ [] → (∀ c ∈ ds, isDecDigit c) → 9223372036854775808 < digitsValue 10 ds →
      resp.Result.data = '-' :: ds →
      (getLatestBlock w nodeUrl s).1 = -9223372036854775808) ∧
    (∀ ds, ds ≠ [] → (∀ c ∈ ds, isHexDigit c) → 9223372036854775808 ≤ digitsValue 16 ds →
      resp.Result.data = '0' :: 'x' :: ds →
      (getLatestBlock w nodeUrl s).1 = 9223372036854775807) := by
  have hok := getLatestBlock_ok w nodeUrl s body resp hpost hjson
  refine ⟨?_, ?_, ?_, ?_, ?_⟩
  · intro hpre hmal
    rw [hok, hpre, if_neg (by decide), ParseInt_dec_malformed _ hmal]
  · intro hexBody hres hmal
    rw [hok, if_pos (HasPrefix_hex resp.Result hexBody hres), hres,
      ParseInt_hex_malformed hexBody hmal]
  · intro ds hne hds hv hres
    have hnot : ¬ digitsValue 10 ds < 9223372036854775808 := by omega
    rcases hres with hres | hres
    · have hpre : HasPrefix resp.Result "0x" = false :=
        HasPrefix_dec resp.Result (by rw [hres]; exact hds)
      rw [hok, hpre, if_neg (by decide), hres, ParseInt_dec_digits ds hne hds, if_neg hnot]
    · have hpre : HasPrefix resp.Result "0x" = false := by
        unfold HasPrefix
        rw [hres]
        show ['0', 'x'].isPrefixOf ('+' :: ds) = false
        simp [List.isPrefixOf]
      rw [hok, hpre, if_neg (by decide), hres, ParseInt_plus_dec_digits ds hne hds,
        if_neg hnot]
  · intro ds hne hds hv hres
    have hnot : ¬ digitsValue 10 ds ≤ 9223372036854775808 := by omega
    have hpre : HasPrefix resp.Result "0x" = false := by
      unfold HasPrefix
      rw [hres]
      show ['0', 'x'].isPrefixOf ('-' :: ds) = false
      simp [List.isPrefixOf]
    rw [hok, hpre, if_neg (by decide), hres, ParseInt_minus_dec_digits ds hne hds,
      if_neg hnot]
  · intro ds hne hds hv hres
    have hnot : ¬ digitsValue 16 ds < 9223372036854775808 := by omega
    rw [hok, if_pos (HasPrefix_hex resp.Result ds hres), hres,
      ParseInt_hex_digits ds hne hds, if_neg hnot]

/-- C4 (amended), at the result `12a`: two decimal digits, then a letter. -/
theorem getLatestBlock_parse_failure_witness :
    (getLatestBlock (answeringWorld none "12a" "12a") "http://node:8545" initialState).1 = 0 :=
  (getLatestBlock_parse_failure (answeringWorld none "12a" "12a") "http://node:8545"
    initialState (exampleReply "12a") { JsonRpc := "2.0", Result := "12a", Id := 1 }
    (by decide) (by decide)).1 (by decide)
    (Or.inr ⟨['1', '2'], 'a', [], rfl, by decide, by decide, by decide⟩)

/-- C5: `getLatestBlock` returns height 0 when the post fails at transport
level, when the status is anything but `200 OK` (whatever the body), and when
the body is rejected by the JSON decoder.  The function has no error result. -/
theorem getLatestBlock_failure_zero (w : World) (nodeUrl : String) (s : State)
    (h : (∃ err, w.post s.posts nodeUrl = PostOutcome.transportError err) ∨
      (∃ status body, w.post s.posts nodeUrl = PostOutcome.response status body ∧
        status ≠ "200 OK") ∨
      (∃ body, w.post s.posts nodeUrl = PostOutcome.response "200 OK" body ∧
        w.unmarshal body = none)) :
    (getLatestBlock w nodeUrl s).1 = 0 := by
  apply getLatestBlock_fail
  unfold queryFails
  rcases h with ⟨err, h⟩ | ⟨status, body, h, hs⟩ | ⟨body, h, hj⟩
  · rw [h]; trivial
  · rw [h]; exact Or.inl hs
  · rw [h]; exact Or.inr hj

/-- C5, at a node answering `503 Service Unavailable` with a well-formed body. -/
theorem getLatestBlock_failure_zero_witness :
    (getLatestBlock failingStatusWorld "http://node:8545" initialState).1 = 0 :=
  getLatestBlock_failure_zero failingStatusWorld "http://node:8545" initialState
    (Or.inr (Or.inl ⟨"503 Service Unavailable", exampleReply "1000", rfl, by decide⟩))

/-! ## Claims about the connection handler -/

theorem connEvents_emit (s : State) (e : Event) :
    connEvents (s.emit e).trace = connEvents s.trace ++ connEvents [e] := by
  unfold State.emit
  exact connEvents_append s.trace [e]

theorem ReadString_ok (conn : Conn) (h : '\n' ∈ conn.incoming) :
    (ReadString conn '\n').2 = none := by
  unfold ReadString
  rw [if_pos h]

theorem ReadString_err (conn : Conn) (h : '\n' ∉ conn.incoming) :
    (ReadString conn '\n').2 = some conn.readErr := by
  unfold ReadString
  rw [if_neg h]

/-- The effects of the handler on the connection after a successful read. -/
theorem handleRequest_connEvents (w : World) (conn : Conn) (s : State)
    (hread : '\n' ∈ conn.incoming) :
    connEvents (handleRequest w conn s).trace =
      connEvents s.trace ++
        [Event.connWrite "\n",
         Event.connWrite
          (if (checkHealth w (s.emit (Event.connWrite "\n"))).1 = true then "up\n"
            else "down\n"),
         Event.connClose] := by
  unfold handleRequest
  rw [ReadString_ok conn hread]
  simp only
  have ht := (checkHealth_trace w (s.emit (Event.connWrite "\n"))).1
  split_ifs <;>
    rw [connEvents_emit, connEvents_emit, ht, connEvents_emit, List.append_assoc,
      List.append_assoc] <;>
    rfl

theorem closeCount_connEvents (t : List Event) :
    closeCount (connEvents t) = closeCount t := by
  unfold closeCount connEvents
  exact List.count_filter rfl

/-- After a successful read the handler closes the connection once. -/
theorem handleRequest_closes_after_read (w : World) (conn : Conn) (s : State)
    (hread : '\n' ∈ conn.incoming) :
    closeCount (handleRequest w conn s).trace = closeCount s.trace + 1 := by
  rw [← closeCount_connEvents, handleRequest_connEvents w conn s hread,
    ← closeCount_connEvents s.trace]
  unfold closeCount
  rw [List.count_append]
  congr 1

/-- C6: when the initial line read succeeds, the handler's effects on the
connection are exactly: write `\n`, write `up\n` if `checkHealth` answers
healthy and `down\n` otherwise, close. -/
theorem handleRequest_response (w : World) (conn : Conn) (s : State)
    (hread : '\n' ∈ conn.incoming) :
    connEvents (handleRequest w conn s).trace =
      connEvents s.trace ++
        [Event.connWrite "\n",
         Event.connWrite
          (if (checkHealth w (s.emit (Event.connWrite "\n"))).1 = true then "up\n"
            else "down\n"),
         Event.connClose] :=
  handleRequest_connEvents w conn s hread

/-- C6, for a client that sends `ping\n` while both nodes report height 1000. -/
theorem handleRequest_response_witness :
    connEvents (handleRequest (answeringWorld none "1000" "1000")
        { incoming := "ping\n".data, readErr := "EOF" } initialState).trace =
      [Event.connWrite "\n", Event.connWrite "up\n", Event.connClose] :=
  (handleRequest_response (answeringWorld none "1000" "1000")
    { incoming := "ping\n".data, readErr := "EOF" } initialState (by decide)).trans
    (by decide)

/-- C7 (the code differs): for a peer that disconnects before sending a
newline the handler returns without closing the connection. -/
theorem handleRequest_read_failure_leaves_open (w : World) :
    closeCount (handleRequest w { incoming := [], readErr := "EOF" } initialState).trace
      = 0 := by
  rfl

/-- C8: when the initial line read fails, the handler writes nothing to the
connection, performs no effect on it at all, and issues no outbound query. -/
theorem handleRequest_read_failure_silent (w : World) (conn : Conn) (s : State)
    (hread : '\n' ∉ conn.incoming) :
    bytesWritten (handleRequest w conn s).trace = bytesWritten s.trace ∧
    connEvents (handleRequest w conn s).trace = connEvents s.trace ∧
    postCount (handleRequest w conn s).trace = postCount s.trace ∧
    (handleRequest w conn s).posts = s.posts := by
  unfold handleRequest
  rw [ReadString_err conn hread]
  refine ⟨?_, ?_, ?_, rfl⟩
  · show bytesWritten (s.trace ++ [Event.stdout (conn.readErr ++ "\n")]) = bytesWritten s.trace
    generalize s.trace = t
    induction t with
    | nil => rfl
    | cons e es ih =>
      cases e <;> simp [bytesWritten, ih]
  · rw [connEvents_emit]
    simp [connEvents]
  · show postCount (s.trace ++ [Event.stdout (conn.readErr ++ "\n")]) = postCount s.trace
    simp [postCount_append, postCount]

/-- C8, for a peer that sends `ping` and disconnects without a newline. -/
theorem handleRequest_read_failure_silent_witness :
    bytesWritten (handleRequest (answeringWorld none "1000" "1000")
        { incoming := "ping".data, readErr := "EOF" } initialState).trace = [] :=
  (handleRequest_read_failure_silent (answeringWorld none "1000" "1000")
    { incoming := "ping".data, readErr := "EOF" } initialState (by decide)).1

end Web3HaproxyAgent
